import Mathlib

/-!
Shallow embedding of the vscode-eslint client coordination core
(src/client/src/client.ts): the `Validator` classification engine with its
probe-failed bookkeeping, the working-directory selection and batched
configuration resolution of `readConfiguration`, the settings-migration
workflow state, and the rule-customization parsing.  Helpers that live
outside src/ (path utilities, the glob compiler, the `Semaphore` class,
the `Migration` class and the modal-dialog collaborator) are modelled from
the spec and carry a doc comment saying so.
-/

/-- Validation mode, the `Validate` enum of shared/settings. -/
inductive Validate
  | off
  | on
  | probe
deriving DecidableEq, Repr

/-- An entry of the configured `eslint.validate` list: a plain language
string, a `ValidateItem` carrying a `language` field, or a malformed entry
matched by neither of the two type guards in `Validator.check`. -/
inductive ValidateEntry
  | plain (value : String)
  | item (language : String)
  | other
deriving DecidableEq, Repr

/-- A URI, reduced to the parts the client core observes: its scheme, its
file-system path and its string rendering (`toString`), used as the key of
every map and set in the source. -/
structure Uri where
  scheme : String
  fsPath : String
  key : String
deriving DecidableEq, Repr

/-- A text document: identity only, as the core never reads content. -/
structure TextDoc where
  uri : Uri
  languageId : String
deriving DecidableEq, Repr

/-- A workspace folder descriptor. -/
structure WorkspaceFolder where
  name : String
  uri : Uri
deriving DecidableEq, Repr

/-- The `ModeItem` values of shared/settings (`auto` or `location`). -/
inductive ModeEnum
  | auto
  | location
deriving DecidableEq, Repr

/-- One entry of the `eslint.workingDirectories` configuration array, after
the type-guard chain of `readConfiguration`: a plain string, a
`LegacyDirectoryItem` (with `changeProcessCWD`), a `DirectoryItem` (with an
optional `!cwd`), a `PatternItem`, a `ModeItem`, or a value matching no
guard (which the loop silently skips). -/
inductive WDEntry
  | plain (directory : String)
  | legacy (directory : String) (changeProcessCWD : Bool)
  | dir (directory : String) (notCwd : Option Bool)
  | pat (pattern : String) (notCwd : Option Bool)
  | mode (value : ModeEnum)
  | other
deriving DecidableEq, Repr

/-- The running `workingDirectory` value of the selection loop: a carried
`ModeItem` or a resolved `DirectoryItem` with its `!cwd` flag. -/
inductive WorkingDir
  | mode (value : ModeEnum)
  | dir (directory : String) (notCwd : Bool)
deriving DecidableEq, Repr

/-- A well-formed rule customization (both fields are strings). -/
structure RuleCustomization where
  rule : String
  severity : String
deriving DecidableEq, Repr

/-- One field of a raw rule-customization entry: a string, a value of some
other runtime type, or absent. -/
inductive RawField
  | str (value : String)
  | other
  | absent
deriving DecidableEq, Repr

/-- A raw element of the rules-customization source array. -/
structure RawEntry where
  rule : RawField
  severity : RawField
deriving DecidableEq, Repr

/-- The raw rules-customization source value: either not an array (this
also covers `undefined` and `null`, for which `!rawConfig` is true) or an
array of raw entries. -/
inductive RawRules
  | nonArray
  | arr (entries : List RawEntry)
deriving DecidableEq, Repr

/-- The code-action-on-save slice of the resolved settings. -/
structure CodeActionsOnSave where
  mode : String
  rules : Option (List String)
deriving DecidableEq, Repr

/-- The resolved per-document settings bag built by `readConfiguration`.
Opaque sub-settings that the core copies verbatim from the configuration
(`options`, `codeAction.disableRuleComment`, `codeAction.showDocumentation`)
are carried as uninterpreted blobs. -/
structure ConfigurationSettings where
  validate : Validate
  packageManager : String
  useESLintClass : Bool
  experimentalUseFlatConfig : Bool
  codeActionOnSave : CodeActionsOnSave
  format : Bool
  quiet : Bool
  onIgnoredFiles : String
  optionsBlob : String
  rulesCustomizations : List RuleCustomization
  run : String
  nodePath : Option String
  workingDirectory : Option WorkingDir
  workspaceFolder : Option WorkspaceFolder
  disableRuleCommentBlob : String
  showDocumentationBlob : String
deriving DecidableEq, Repr

/-- The `eslint.*` configuration section visible from one scope, with the
defaults of the individual `config.get` calls already applied by the
environment.  `validate`, `probe` and `workingDirectories` are `none` when
the raw value is absent or not an array (the source guards each with
`Array.isArray`). -/
structure ESLintConfig where
  enable : Bool
  enabled : Bool
  validate : Option (List ValidateEntry)
  probe : Option (List String)
  packageManager : String
  useESLintClass : Bool
  experimentalUseFlatConfig : Bool
  quiet : Bool
  onIgnoredFiles : String
  optionsBlob : String
  run : String
  nodePath : Option String
  formatEnable : Bool
  codeActionsOnSaveMode : String
  codeActionsOnSaveRules : Option (List String)
  workingDirectories : Option (List WDEntry)
  rulesCustomizationsRaw : RawRules
  notebookRulesCustomizationsRaw : Option RawRules
  disableRuleCommentBlob : String
  showDocumentationBlob : String
deriving Repr

namespace Validator

/-- The first-match loop of `Validator.check` over the configured
`validate` list (client.ts lines 45-53): a plain string entry matches when
it equals the language id, a `ValidateItem` when its `language` field does;
entries matching neither guard are skipped. -/
def validateLoop (languageId : String) : List ValidateEntry → Bool
  | [] => false
  | ValidateEntry.plain value :: rest =>
      if value = languageId then true else validateLoop languageId rest
  | ValidateEntry.item language :: rest =>
      if language = languageId then true else validateLoop languageId rest
  | ValidateEntry.other :: rest => validateLoop languageId rest

/-- The first-match loop of `Validator.check` over the configured `probe`
list (client.ts lines 59-65). -/
def probeLoop (languageId : String) : List String → Bool
  | [] => false
  | item :: rest => if item = languageId then true else probeLoop languageId rest

/-- `Validator.check` (client.ts lines 38-67).  The workspace configuration
for the document's scope is passed explicitly; `probeFailed` is the
validator's probe-failed set, represented as a list of URI keys. -/
def check (config : ESLintConfig) (probeFailed : List String) (textDocument : TextDoc) : Validate :=
  if config.enable = false then Validate.off
  else
    let languageId := textDocument.languageId
    let validateMatched :=
      match config.validate with
      | some validate => validateLoop languageId validate
      | none => false
    if validateMatched then Validate.on
    else
      let uri := textDocument.uri.key
      if probeFailed.contains uri then Validate.off
      else
        let probeMatched :=
          match config.probe with
          | some probe => probeLoop languageId probe
          | none => false
        if probeMatched then Validate.probe
        else Validate.off

/-- `Validator.clear` (client.ts lines 30-32): empties the probe-failed set. -/
def clear (_probeFailed : List String) : List String := []

/-- `Validator.add` (client.ts lines 34-36): inserts a URI key into the
probe-failed set. -/
def add (probeFailed : List String) (uri : String) : List String := uri :: probeFailed

end Validator

/-- Spec-side reading of a single validate-list entry matching a language. -/
def ValidateEntry.matchesLanguage (languageId : String) : ValidateEntry → Bool
  | .plain value => decide (value = languageId)
  | .item language => decide (language = languageId)
  | .other => false

/-- Spec-side: the language tag matches some entry of the validate list. -/
def validateHit (config : ESLintConfig) (languageId : String) : Bool :=
  match config.validate with
  | some validate => validate.any (ValidateEntry.matchesLanguage languageId)
  | none => false

/-- Spec-side: the language tag matches some entry of the probe list. -/
def probeHit (config : ESLintConfig) (languageId : String) : Bool :=
  match config.probe with
  | some probe => probe.any (fun item => decide (item = languageId))
  | none => false

theorem validateLoop_eq_any (languageId : String) (entries : List ValidateEntry) :
    Validator.validateLoop languageId entries =
      entries.any (ValidateEntry.matchesLanguage languageId) := by
  induction entries with
  | nil => rfl
  | cons e rest ih =>
    cases e with
    | plain value =>
      by_cases h : value = languageId <;>
        simp [Validator.validateLoop, ValidateEntry.matchesLanguage, h, ih]
    | item language =>
      by_cases h : language = languageId <;>
        simp [Validator.validateLoop, ValidateEntry.matchesLanguage, h, ih]
    | other => simp [Validator.validateLoop, ValidateEntry.matchesLanguage, ih]

theorem probeLoop_eq_any (languageId : String) (entries : List String) :
    Validator.probeLoop languageId entries =
      entries.any (fun item => decide (item = languageId)) := by
  induction entries with
  | nil => rfl
  | cons e rest ih =>
    by_cases h : e = languageId <;> simp [Validator.probeLoop, h, ih]

/-- The probe-failed request handler (client.ts lines 281-289): adds the
reported document URI to the validator's probe-failed set. -/
def probeFailedHandler (probeFailed : List String) (uri : String) : List String :=
  Validator.add probeFailed uri

/-- The configuration-change subscription (client.ts lines 149-150): clears
the probe-failed set before reconciling the synced documents. -/
def onDidChangeConfiguration (probeFailed : List String) : List String :=
  Validator.clear probeFailed

/-- The `didChangeWatchedFile` middleware (client.ts lines 507-510): clears
the probe-failed set before forwarding the event. -/
def didChangeWatchedFile (probeFailed : List String) : List String :=
  Validator.clear probeFailed

/-- The events that mutate the probe-failed set. -/
inductive VEvent
  | probeFailed (uri : String)
  | configChange
  | watchedFileChange
deriving DecidableEq, Repr

/-- Effect of one event on the probe-failed set, dispatching to the three
handlers above. -/
def applyEvent (probeFailed : List String) : VEvent → List String
  | VEvent.probeFailed uri => probeFailedHandler probeFailed uri
  | VEvent.configChange => onDidChangeConfiguration probeFailed
  | VEvent.watchedFileChange => didChangeWatchedFile probeFailed

/-- Effect of a sequence of events on the probe-failed set. -/
def applyEvents (probeFailed : List String) (events : List VEvent) : List String :=
  events.foldl applyEvent probeFailed

/-- An event that clears the probe-failed set in bulk. -/
def isClearEvent : VEvent → Bool
  | VEvent.probeFailed _ => false
  | VEvent.configChange => true
  | VEvent.watchedFileChange => true

/-- `Validator.check` rewritten as a nested conditional over the spec-side
match predicates; the bridge used by the classification theorems. -/
theorem check_eq_spec (config : ESLintConfig) (probeFailed : List String) (doc : TextDoc) :
    Validator.check config probeFailed doc =
      if config.enable = false then Validate.off
      else if validateHit config doc.languageId then Validate.on
      else if probeFailed.contains doc.uri.key then Validate.off
      else if probeHit config doc.languageId then Validate.probe
      else Validate.off := by
  unfold Validator.check validateHit probeHit
  cases config.validate <;> cases config.probe <;>
    simp [validateLoop_eq_any, probeLoop_eq_any]

/-- A baseline configuration used by the concrete witnesses below. -/
def sampleConfig : ESLintConfig where
  enable := true
  enabled := true
  validate := none
  probe := none
  packageManager := "npm"
  useESLintClass := false
  experimentalUseFlatConfig := false
  quiet := false
  onIgnoredFiles := "off"
  optionsBlob := "default-options"
  run := "onType"
  nodePath := none
  formatEnable := false
  codeActionsOnSaveMode := "all"
  codeActionsOnSaveRules := none
  workingDirectories := none
  rulesCustomizationsRaw := RawRules.nonArray
  notebookRulesCustomizationsRaw := none
  disableRuleCommentBlob := "default-disable-rule-comment"
  showDocumentationBlob := "default-show-documentation"

/-- A sample JSON document used by the concrete witnesses below. -/
def sampleDoc : TextDoc where
  uri := { scheme := "file", fsPath := "/ws/a.json", key := "file:///ws/a.json" }
  languageId := "json"

/-- The baseline configuration with a probe list containing `json`. -/
def sampleProbeConfig : ESLintConfig :=
  { sampleConfig with probe := some ["json"] }

/-- C1: `Validator.check` evaluates its rules in a fixed order with first
match winning: a disabled configuration yields `off`; otherwise a
validate-list match (plain string or language descriptor) yields `on`;
otherwise membership of the document's URI in the probe-failed set yields
`off`; otherwise a probe-list match yields `probe`; otherwise `off`. -/
theorem classify_first_match_order (config : ESLintConfig) (probeFailed : List String)
    (doc : TextDoc) :
    (config.enable = false → Validator.check config probeFailed doc = Validate.off) ∧
    (config.enable = true → validateHit config doc.languageId = true →
      Validator.check config probeFailed doc = Validate.on) ∧
    (config.enable = true → validateHit config doc.languageId = false →
      probeFailed.contains doc.uri.key = true →
      Validator.check config probeFailed doc = Validate.off) ∧
    (config.enable = true → validateHit config doc.languageId = false →
      probeFailed.contains doc.uri.key = false →
      probeHit config doc.languageId = true →
      Validator.check config probeFailed doc = Validate.probe) ∧
    (config.enable = true → validateHit config doc.languageId = false →
      probeFailed.contains doc.uri.key = false →
      probeHit config doc.languageId = false →
      Validator.check config probeFailed doc = Validate.off) := by
  refine ⟨?_, ?_, ?_, ?_, ?_⟩ <;> intros <;> simp_all [check_eq_spec]

/-- Witness for C1 at a concrete input: with the document's language in the
validate list, classification yields `on`. -/
theorem classify_first_match_order_witness :
    validateHit { sampleConfig with validate := some [ValidateEntry.plain "json"] } "json" = true ∧
    Validator.check { sampleConfig with validate := some [ValidateEntry.plain "json"] } []
      sampleDoc = Validate.on :=
  ⟨by decide,
   (classify_first_match_order _ [] sampleDoc).2.1 (by decide) (by decide)⟩

/-- The baseline configuration with `json` in both the validate and the
probe list. -/
def sampleValidateProbeConfig : ESLintConfig :=
  { sampleConfig with validate := some [ValidateEntry.plain "json"], probe := some ["json"] }

/-- C2 counterexample: a URI added to the probe-failed set by the
probe-failed handler, whose document language sits in the probe list but
also in the validate list, classifies as `on`, not `off` — the validate
check precedes the probe-failed check. -/
theorem probe_failed_override_counterexample :
    probeHit sampleValidateProbeConfig sampleDoc.languageId = true ∧
    (probeFailedHandler [] sampleDoc.uri.key).contains sampleDoc.uri.key = true ∧
    Validator.check sampleValidateProbeConfig (probeFailedHandler [] sampleDoc.uri.key)
      sampleDoc = Validate.on ∧
    Validate.on ≠ Validate.off :=
  ⟨by decide, by decide, by decide, by decide⟩

theorem mem_applyEvents_of_no_clear (uri : String) (probeFailed : List String)
    (events : List VEvent) (hmem : uri ∈ probeFailed)
    (hnoclear : ∀ e ∈ events, isClearEvent e = false) :
    uri ∈ applyEvents probeFailed events := by
  induction events generalizing probeFailed with
  | nil => exact hmem
  | cons e rest ih =>
    cases e with
    | probeFailed v =>
      exact ih (Validator.add probeFailed v)
        (by simp [Validator.add, hmem, probeFailedHandler])
        (fun e he => hnoclear e (List.mem_cons_of_mem _ he))
    | configChange =>
      have := hnoclear VEvent.configChange (List.mem_cons_self _ _)
      simp [isClearEvent] at this
    | watchedFileChange =>
      have := hnoclear VEvent.watchedFileChange (List.mem_cons_self _ _)
      simp [isClearEvent] at this

/-- C2 (amended): once a URI is added to the probe-failed set by the
probe-failed handler, every subsequent classification of a document with
that URI returns `off` — even when its language tag is in the configured
probe list — provided the tag does not match the configured validate list
(a validate match takes precedence and yields `on`), and this holds until
a configuration-change or watched-file event clears the set in bulk. -/
theorem probe_failed_override (probeFailed : List String) (events : List VEvent)
    (config : ESLintConfig) (doc : TextDoc)
    (hnoclear : ∀ e ∈ events, isClearEvent e = false)
    (hvalidate : validateHit config doc.languageId = false) :
    Validator.check config
      (applyEvents (probeFailedHandler probeFailed doc.uri.key) events) doc = Validate.off := by
  have hmem : doc.uri.key ∈ applyEvents (probeFailedHandler probeFailed doc.uri.key) events :=
    mem_applyEvents_of_no_clear _ _ _ (by simp [probeFailedHandler, Validator.add]) hnoclear
  rw [check_eq_spec]
  cases henable : config.enable with
  | false => simp
  | true => simp [hvalidate, List.elem_iff, hmem]

/-- Witness for C2 (amended) at a concrete input: after a probe failure for
the sample document and a further non-clearing event, classification is
`off` although the language is in the probe list. -/
theorem probe_failed_override_witness :
    validateHit sampleProbeConfig sampleDoc.languageId = false ∧
    probeHit sampleProbeConfig sampleDoc.languageId = true ∧
    Validator.check sampleProbeConfig
      (applyEvents (probeFailedHandler [] sampleDoc.uri.key)
        [VEvent.probeFailed "untitled:Untitled-1"]) sampleDoc = Validate.off :=
  ⟨by decide, by decide,
   probe_failed_override [] [VEvent.probeFailed "untitled:Untitled-1"]
     sampleProbeConfig sampleDoc (by decide) (by decide)⟩

/-- C10: the watched-file middleware clears the probe-failed set in bulk
exactly like the configuration-change handler, so a previously probe-failed
document whose language is in the probe list classifies as `probe` again
after an on-disk configuration-file change, with no settings change. -/
theorem watched_file_clears_probe_failed (probeFailed : List String)
    (config : ESLintConfig) (doc : TextDoc)
    (henable : config.enable = true)
    (hvalidate : validateHit config doc.languageId = false)
    (hprobe : probeHit config doc.languageId = true) :
    didChangeWatchedFile probeFailed = [] ∧
    onDidChangeConfiguration probeFailed = [] ∧
    Validator.check config (didChangeWatchedFile probeFailed) doc = Validate.probe := by
  refine ⟨rfl, rfl, ?_⟩
  rw [check_eq_spec]
  simp [didChangeWatchedFile, Validator.clear, henable, hvalidate, hprobe]

/-- Witness for C10 at a concrete input: the sample document's URI is in
the probe-failed set, a watched-file event empties the set, and the
document classifies as `probe` against the emptied set. -/
theorem watched_file_clears_probe_failed_witness :
    didChangeWatchedFile [sampleDoc.uri.key] = [] ∧
    onDidChangeConfiguration [sampleDoc.uri.key] = [] ∧
    Validator.check sampleProbeConfig (didChangeWatchedFile [sampleDoc.uri.key])
      sampleDoc = Validate.probe :=
  watched_file_clears_probe_failed [sampleDoc.uri.key] sampleProbeConfig sampleDoc
    (by decide) (by decide) (by decide)

/-- String `startsWith`, computed on the character lists. -/
def strStartsWith (s p : String) : Bool := p.toList.isPrefixOf s.toList

/-- String `endsWith`, computed on the character lists. -/
def strEndsWith (s p : String) : Bool := p.toList.isSuffixOf s.toList

/-- Modelled from the spec: node's `path.isAbsolute` for POSIX paths (the
node-utils path helpers are not under src/). -/
def pathIsAbsolute (p : String) : Bool := strStartsWith p "/"

/-- Modelled from the spec: node's `path.join` for POSIX paths, restricted
to joining a base directory with a relative segment. -/
def pathJoin (a b : String) : String :=
  if strEndsWith a "/" then a ++ b else a ++ "/" ++ b

/-- Modelled from the spec: `toOSPath` of node-utils, the identity on a
POSIX host. -/
def toOSPath (p : String) : String := p

/-- Modelled from the spec: `toPosixPath` of node-utils, the identity on a
POSIX host. -/
def toPosixPath (p : String) : String := p

/-- Modelled from the spec: the prefix matcher compiled by `convert2RegExp`
(node-utils, not under src/), reduced to the constructs the spec names: a
literal character matches itself, `*` matches a run of non-separator
characters, the pattern is anchored at the start, and the consumed prefix
is the match value. -/
def globMatchChars : List Char → List Char → Option (List Char)
  | [], _ => some []
  | c :: ps, s =>
    if c = '*' then
      match s with
      | [] => globMatchChars ps []
      | d :: s' =>
        if d = '/' then globMatchChars ps (d :: s')
        else
          match globMatchChars (c :: ps) s' with
          | some r => some (d :: r)
          | none => globMatchChars ps (d :: s')
    else
      match s with
      | [] => none
      | d :: s' => if c = d then (globMatchChars ps s').map (fun r => d :: r) else none
termination_by ps s => ps.length + s.length
decreasing_by all_goals simp_wf <;> omega

/-- Modelled from the spec: matching the compiled pattern against a prefix
of the file path; the match value is the matched substring. -/
def globMatchPrefix (pattern filePath : String) : Option String :=
  (globMatchChars pattern.toList filePath.toList).map (fun cs => String.mk cs)

/-- The type-guard chain of the working-directory loop (client.ts lines
650-671): the `directory`/`pattern` value and the `noCWD` flag of one
entry; `ModeItem` entries are handled directly by the loop. -/
def entryFields : WDEntry → Option String × Option String × Bool
  | WDEntry.plain directory => (some directory, none, false)
  | WDEntry.legacy directory changeProcessCWD => (some directory, none, !changeProcessCWD)
  | WDEntry.dir directory notCwd => (some directory, none, notCwd.getD false)
  | WDEntry.pat pattern notCwd => (none, some pattern, notCwd.getD false)
  | WDEntry.mode _ => (none, none, false)
  | WDEntry.other => (none, none, false)

/-- The per-entry `itemValue` computation of the working-directory loop
(client.ts lines 673-704): normalize the directory or pattern to an
absolute, separator-terminated form and match it against the document's
file path. -/
def computeItemValue (workspaceFolderPath filePath : Option String)
    (directory pattern : Option String) : Option String :=
  if directory.isSome ∨ pattern.isSome then
    match filePath with
    | none => none
    | some filePath =>
      match directory with
      | some directory0 =>
        let directory1 := toOSPath directory0
        let directory2 :=
          if pathIsAbsolute directory1 = false then
            match workspaceFolderPath with
            | some root => pathJoin root directory1
            | none => directory1
          else directory1
        let directory3 := if strEndsWith directory2 "/" then directory2 else directory2 ++ "/"
        if strStartsWith filePath directory3 then some directory3 else none
      | none =>
        match pattern with
        | some pattern0 =>
          if pattern0.length > 0 then
            let pattern1 :=
              if pathIsAbsolute pattern0 = false then
                match workspaceFolderPath with
                | some root => pathJoin (toPosixPath root) pattern0
                | none => pattern0
              else pattern0
            let pattern2 := if strEndsWith pattern1 "/" then pattern1 else pattern1 ++ "/"
            globMatchPrefix pattern2 filePath
          else none
        | none => none
  else none

/-- One iteration of the working-directory selection loop (client.ts lines
649-715) on the running `workingDirectory` accumulator: a `ModeItem` is
assigned unconditionally; a Directory/Pattern match replaces an absent or
`ModeItem` value, and replaces a directory value only when strictly
longer. -/
def wdStep (workspaceFolderPath filePath : Option String)
    (workingDirectory : Option WorkingDir) (entry : WDEntry) : Option WorkingDir :=
  match entry with
  | WDEntry.mode m => some (WorkingDir.mode m)
  | _ =>
    let fields := entryFields entry
    match computeItemValue workspaceFolderPath filePath fields.1 fields.2.1 with
    | none => workingDirectory
    | some itemValue =>
      match workingDirectory with
      | none => some (WorkingDir.dir itemValue fields.2.2)
      | some (WorkingDir.mode _) => some (WorkingDir.dir itemValue fields.2.2)
      | some (WorkingDir.dir directory notCwd) =>
        if directory.length < itemValue.length then some (WorkingDir.dir itemValue fields.2.2)
        else some (WorkingDir.dir directory notCwd)

/-- The whole working-directory selection of `readConfiguration` over the
configured entries (client.ts lines 645-716). -/
def resolveWorkingDirectory (workspaceFolderPath filePath : Option String)
    (entries : List WDEntry) : Option WorkingDir :=
  entries.foldl (wdStep workspaceFolderPath filePath) none

/-- Spec-side: the Directory/Pattern match value and flag of one rule,
`none` for `Mode` rules and non-matching rules. -/
def entryMatchValue (workspaceFolderPath filePath : Option String) (entry : WDEntry) :
    Option (String × Bool) :=
  match entry with
  | WDEntry.mode _ => none
  | _ =>
    let fields := entryFields entry
    (computeItemValue workspaceFolderPath filePath fields.1 fields.2.1).map
      (fun v => (v, fields.2.2))

/-- Spec-side running best: replace only when the new value is strictly
longer than the current best. -/
def bestAccum (b : String × Bool) : List (String × Bool) → String × Bool
  | [] => b
  | v :: rest => bestAccum (if b.1.length < v.1.length then v else b) rest

/-- Spec-side, from the spec's words: iterate the match values in declared
order keeping a running best match, replacing it only on strictly longer
values, so equal lengths keep the first occurrence. -/
def specBestMatch : List (String × Bool) → Option (String × Bool)
  | [] => none
  | v :: rest => some (bestAccum v rest)

/-- Spec-side: the last `Mode` rule of the sequence. -/
def lastMode : List WDEntry → Option ModeEnum
  | [] => none
  | WDEntry.mode m :: rest =>
    match lastMode rest with
    | some m' => some m'
    | none => some m
  | _ :: rest => lastMode rest

/-- Spec-side, from the spec's words: the selected working directory is the
longest match, first-declared winning among equal lengths, with the last
`Mode` rule as fallback when no rule matches. -/
def specSelect (workspaceFolderPath filePath : Option String)
    (entries : List WDEntry) : Option WorkingDir :=
  match specBestMatch (entries.filterMap (entryMatchValue workspaceFolderPath filePath)) with
  | some vb => some (WorkingDir.dir vb.1 vb.2)
  | none => (lastMode entries).map WorkingDir.mode

/-- No `Mode` rule occurs at or after a position once a Directory/Pattern
rule has matched; `seenMatch` records whether a match has been passed. -/
def noModeAfterMatch (workspaceFolderPath filePath : Option String) :
    Bool → List WDEntry → Bool
  | _, [] => true
  | seenMatch, entry :: rest =>
    match entry with
    | WDEntry.mode _ =>
      if seenMatch then false
      else noModeAfterMatch workspaceFolderPath filePath seenMatch rest
    | _ =>
      noModeAfterMatch workspaceFolderPath filePath
        (seenMatch || (entryMatchValue workspaceFolderPath filePath entry).isSome) rest

/-- An entry that is not a `ModeItem`. -/
def notMode : WDEntry → Bool
  | WDEntry.mode _ => false
  | _ => true

theorem wdStep_eq_none (workspaceFolderPath filePath : Option String)
    (acc : Option WorkingDir) (e : WDEntry) (hm : notMode e = true)
    (hv : entryMatchValue workspaceFolderPath filePath e = none) :
    wdStep workspaceFolderPath filePath acc e = acc := by
  cases e <;>
    simp_all [wdStep, entryMatchValue, entryFields, notMode, Option.map_eq_none']

theorem wdStep_eq_some (workspaceFolderPath filePath : Option String)
    (acc : Option WorkingDir) (e : WDEntry) (vb : String × Bool)
    (hv : entryMatchValue workspaceFolderPath filePath e = some vb) :
    wdStep workspaceFolderPath filePath acc e =
      match acc with
      | none => some (WorkingDir.dir vb.1 vb.2)
      | some (WorkingDir.mode _) => some (WorkingDir.dir vb.1 vb.2)
      | some (WorkingDir.dir d nc) =>
        if d.length < vb.1.length then some (WorkingDir.dir vb.1 vb.2)
        else some (WorkingDir.dir d nc) := by
  cases e <;>
    simp_all [wdStep, entryMatchValue, entryFields, Option.map_eq_some'] <;>
    (obtain ⟨v, hcv, hfe⟩ := hv; subst hfe; simp [hcv])

theorem noModeAfterMatch_cons_of_notMode (workspaceFolderPath filePath : Option String)
    (seenMatch : Bool) (e : WDEntry) (rest : List WDEntry) (hm : notMode e = true) :
    noModeAfterMatch workspaceFolderPath filePath seenMatch (e :: rest) =
      noModeAfterMatch workspaceFolderPath filePath
        (seenMatch || (entryMatchValue workspaceFolderPath filePath e).isSome) rest := by
  cases e <;> simp_all [noModeAfterMatch, notMode]

theorem lastMode_cons_of_notMode (e : WDEntry) (rest : List WDEntry)
    (hm : notMode e = true) :
    lastMode (e :: rest) = lastMode rest := by
  cases e <;> simp_all [lastMode, notMode]

theorem wdFold_from_dir (workspaceFolderPath filePath : Option String)
    (entries : List WDEntry) (b : String × Bool)
    (h : noModeAfterMatch workspaceFolderPath filePath true entries = true) :
    entries.foldl (wdStep workspaceFolderPath filePath) (some (WorkingDir.dir b.1 b.2)) =
      some (WorkingDir.dir
        (bestAccum b (entries.filterMap (entryMatchValue workspaceFolderPath filePath))).1
        (bestAccum b (entries.filterMap (entryMatchValue workspaceFolderPath filePath))).2) := by
  induction entries generalizing b with
  | nil => simp [bestAccum]
  | cons e rest ih =>
    rw [List.foldl_cons]
    by_cases hm : notMode e = true
    · rw [noModeAfterMatch_cons_of_notMode _ _ _ _ _ hm] at h
      cases hv : entryMatchValue workspaceFolderPath filePath e with
      | none =>
        rw [wdStep_eq_none _ _ _ _ hm hv]
        rw [hv] at h
        simp only [Option.isSome_none, Bool.or_false] at h
        rw [List.filterMap_cons, hv, ih b h]
      | some vb =>
        rw [wdStep_eq_some _ _ _ _ _ hv]
        rw [hv] at h
        simp only [Option.isSome_some, Bool.or_true] at h
        rw [List.filterMap_cons, hv]
        by_cases hlt : b.1.length < vb.1.length
        · simp only [hlt, if_pos, bestAccum]
          exact ih vb h
        · simp only [hlt, bestAccum, if_neg, if_false]
          exact ih b h
    · rcases e with d | ⟨d, cwd⟩ | ⟨d, nc⟩ | ⟨p, nc⟩ | m | _ <;>
        simp only [notMode, Bool.not_eq_true] at hm <;>
        first
        | exact absurd trivial hm
        | simp [noModeAfterMatch] at h

theorem wdFold_from_mode (workspaceFolderPath filePath : Option String)
    (entries : List WDEntry) (macc : Option ModeEnum)
    (h : noModeAfterMatch workspaceFolderPath filePath false entries = true) :
    entries.foldl (wdStep workspaceFolderPath filePath) (macc.map WorkingDir.mode) =
      match specBestMatch (entries.filterMap (entryMatchValue workspaceFolderPath filePath)) with
      | some vb => some (WorkingDir.dir vb.1 vb.2)
      | none =>
        (match lastMode entries with
         | some m => some m
         | none => macc).map WorkingDir.mode := by
  induction entries generalizing macc with
  | nil => cases macc <;> simp [specBestMatch, lastMode]
  | cons e rest ih =>
    rw [List.foldl_cons]
    by_cases hm : notMode e = true
    · rw [noModeAfterMatch_cons_of_notMode _ _ _ _ _ hm] at h
      rw [List.filterMap_cons, lastMode_cons_of_notMode _ _ hm]
      cases hv : entryMatchValue workspaceFolderPath filePath e with
      | none =>
        rw [wdStep_eq_none _ _ _ _ hm hv]
        rw [hv] at h
        simp only [Option.isSome_none, Bool.false_or] at h
        exact ih macc h
      | some vb =>
        rw [wdStep_eq_some _ _ _ _ _ hv]
        rw [hv] at h
        simp only [Option.isSome_some, Bool.or_true, Bool.true_or] at h
        have hdir := wdFold_from_dir workspaceFolderPath filePath rest vb h
        cases macc <;> exact hdir
    · rcases e with d | ⟨d, cwd⟩ | ⟨d, nc⟩ | ⟨p, nc⟩ | m | _ <;>
        simp only [notMode, Bool.not_eq_true] at hm <;>
        try exact absurd trivial hm
      have h' : noModeAfterMatch workspaceFolderPath filePath false rest = true := by
        simpa [noModeAfterMatch] using h
      have hstep : wdStep workspaceFolderPath filePath (macc.map WorkingDir.mode)
          (WDEntry.mode m) = (some m).map WorkingDir.mode := rfl
      rw [hstep, ih (some m) h', List.filterMap_cons]
      simp only [entryMatchValue]
      cases specBestMatch (List.filterMap (entryMatchValue workspaceFolderPath filePath) rest) with
      | none =>
        simp only [lastMode]
        cases lastMode rest <;> simp
      | some vb => simp

/-- C3 (amended): provided no `Mode` rule occurs after a matching
Directory/Pattern rule, the working-directory selection returns exactly the
spec's longest match: the running best is replaced only by strictly longer
match values, equal lengths keep the first-declared match, and the last
`Mode` rule is the fallback when nothing matches. -/
theorem working_directory_longest_match (workspaceFolderPath filePath : Option String)
    (entries : List WDEntry)
    (h : noModeAfterMatch workspaceFolderPath filePath false entries = true) :
    resolveWorkingDirectory workspaceFolderPath filePath entries =
      specSelect workspaceFolderPath filePath entries := by
  have hb := wdFold_from_mode workspaceFolderPath filePath entries none h
  exact hb.trans (by
    unfold specSelect
    cases specBestMatch (entries.filterMap (entryMatchValue workspaceFolderPath filePath)) with
    | some vb => rfl
    | none => cases lastMode entries <;> rfl)

/-- C3 counterexample: with rules `Directory /a/` followed by a `Mode`
rule, the file `/a/b/c.js` has the matching Directory rule, yet the
selection returns the `Mode` rule instead of the longest match `/a/` — the
`Mode` assignment overwrites the running best. -/
theorem working_directory_longest_match_counterexample :
    entryMatchValue none (some "/a/b/c.js") (WDEntry.dir "/a/" none) = some ("/a/", false) ∧
    resolveWorkingDirectory none (some "/a/b/c.js")
      [WDEntry.dir "/a/" none, WDEntry.mode ModeEnum.auto] =
      some (WorkingDir.mode ModeEnum.auto) ∧
    specSelect none (some "/a/b/c.js")
      [WDEntry.dir "/a/" none, WDEntry.mode ModeEnum.auto] =
      some (WorkingDir.dir "/a/" false) ∧
    (some (WorkingDir.mode ModeEnum.auto) : Option WorkingDir) ≠
      some (WorkingDir.dir "/a/" false) :=
  ⟨by decide, by decide, by decide, by decide⟩

/-- Witness for C3 (amended) at the spec's own example: `Directory /a/`
and `Directory /a/b/` with file `/a/b/c.js` resolve to the strictly longer
`/a/b/`. -/
theorem working_directory_longest_match_witness :
    noModeAfterMatch none (some "/a/b/c.js") false
      [WDEntry.dir "/a/" none, WDEntry.dir "/a/b/" none] = true ∧
    resolveWorkingDirectory none (some "/a/b/c.js")
      [WDEntry.dir "/a/" none, WDEntry.dir "/a/b/" none] =
      some (WorkingDir.dir "/a/b/" false) :=
  ⟨by decide,
   (working_directory_longest_match none (some "/a/b/c.js")
     [WDEntry.dir "/a/" none, WDEntry.dir "/a/b/" none] (by decide)).trans (by decide)⟩

/-- C4 (amended): a `Mode` rule never competes for match length — it is
assigned unconditionally as the carried value — and while a `Mode` value is
carried, any Directory/Pattern rule that matches the file path afterwards
replaces it immediately.  (A `Mode` rule appearing after a matching rule,
however, replaces the previously selected directory.) -/
theorem mode_rule_fallback (workspaceFolderPath filePath : Option String) :
    (∀ (acc : Option WorkingDir) (m : ModeEnum),
      wdStep workspaceFolderPath filePath acc (WDEntry.mode m) =
        some (WorkingDir.mode m)) ∧
    (∀ (m : ModeEnum) (entry : WDEntry) (v : String) (nc : Bool),
      entryMatchValue workspaceFolderPath filePath entry = some (v, nc) →
      wdStep workspaceFolderPath filePath (some (WorkingDir.mode m)) entry =
        some (WorkingDir.dir v nc)) := by
  constructor
  · intro acc m
    rfl
  · intro m entry v nc hv
    rw [wdStep_eq_some _ _ _ _ _ hv]

/-- C4 counterexample: with a matching `Directory /p/` rule followed by a
`Mode` rule, the `Mode` rule is not overridden by the preceding match — the
selection returns the `Mode` rule, refuting that the override happens
regardless of where the `Mode` rule appears. -/
theorem mode_rule_fallback_counterexample :
    entryMatchValue none (some "/p/q.js") (WDEntry.dir "/p/" none) = some ("/p/", false) ∧
    resolveWorkingDirectory none (some "/p/q.js")
      [WDEntry.dir "/p/" none, WDEntry.mode ModeEnum.location] =
      some (WorkingDir.mode ModeEnum.location) ∧
    (some (WorkingDir.mode ModeEnum.location) : Option WorkingDir) ≠
      some (WorkingDir.dir "/p/" false) :=
  ⟨by decide, by decide, by decide⟩

/-- Witness for C4 (amended) at a concrete input: a `Mode` rule overwrites
a previously selected directory without comparing lengths, and a carried
`Mode` value is replaced by a later matching Directory rule. -/
theorem mode_rule_fallback_witness :
    wdStep none (some "/p/q.js") (some (WorkingDir.dir "/x/" true))
      (WDEntry.mode ModeEnum.auto) = some (WorkingDir.mode ModeEnum.auto) ∧
    wdStep none (some "/p/q.js") (some (WorkingDir.mode ModeEnum.auto))
      (WDEntry.dir "/p/" none) = some (WorkingDir.dir "/p/" false) :=
  ⟨(mode_rule_fallback none (some "/p/q.js")).1 _ _,
   (mode_rule_fallback none (some "/p/q.js")).2 ModeEnum.auto
     (WDEntry.dir "/p/" none) "/p/" false (by decide)⟩

/-- `parseRulesCustomizations` (client.ts lines 723-738): a non-array or
absent source yields the empty list; otherwise each entry whose `severity`
and `rule` fields are both strings is kept as is, and every other entry is
mapped to `undefined` and filtered out. -/
def parseRulesCustomizations : RawRules → List RuleCustomization
  | RawRules.nonArray => []
  | RawRules.arr entries =>
    (entries.map (fun rawValue =>
      match rawValue.severity, rawValue.rule with
      | RawField.str severity, RawField.str rule =>
        some { severity := severity, rule := rule }
      | _, _ => none)).filterMap id

/-- `getRuleCustomizations` (client.ts lines 740-749): read the
notebook-specific key for notebook cells, fall back to the general key when
the notebook value is absent or null, and parse the chosen source. -/
def getRuleCustomizations (config : ESLintConfig) (uri : Uri) : List RuleCustomization :=
  let customizations :=
    if uri.scheme = "vscode-notebook-cell" then config.notebookRulesCustomizationsRaw
    else none
  match customizations with
  | some value => parseRulesCustomizations value
  | none => parseRulesCustomizations config.rulesCustomizationsRaw

/-- Spec-side: the well-formed reading of one raw entry, `none` when
either field is missing or not a string. -/
def RawEntry.wellFormed (rawValue : RawEntry) : Option RuleCustomization :=
  match rawValue.severity, rawValue.rule with
  | RawField.str severity, RawField.str rule => some { severity := severity, rule := rule }
  | _, _ => none

/-- The user's raw interaction with the migration dialog: picking one of
the four items or dismissing the dialog. -/
inductive UserAction
  | yes
  | no
  | global
  | readme
  | dismiss
deriving DecidableEq, Repr

/-- The item ids of the migration prompt (client.ts lines 563-581). -/
inductive MigChoice
  | yes
  | no
  | global
  | readme
deriving DecidableEq, Repr

/-- Modelled from the spec and the VS Code modal-dialog contract: the
prompt's `Not now` item carries `isCloseAffordance` (client.ts line 580),
so dismissing the modal dialog yields that item; every explicit pick
yields itself. -/
def dialogSelect : UserAction → MigChoice
  | UserAction.yes => MigChoice.yes
  | UserAction.no => MigChoice.no
  | UserAction.global => MigChoice.global
  | UserAction.readme => MigChoice.readme
  | UserAction.dismiss => MigChoice.no

/-- The migration-related mutable state of the client: the session-wide
`notNow` flag (client.ts line 133) and the global `migration.2_x` setting,
which the `Never migrate Settings` choice turns off (client.ts line 592). -/
structure MigState where
  notNow : Bool
  migrationSetting : String
deriving DecidableEq, Repr

/-- The environment one configuration-resolution call observes: the scoped
configuration sections, the synced-documents map, the workspace folders,
and the collaborators modelled from the spec: `Migration.needsUpdate` for
a resource (the `Migration` class is not under src/) and the user's action
on the migration dialog. -/
structure Env where
  configOf : Uri → ESLintConfig
  syncedDocuments : String → Option TextDoc
  workspaceFolders : Option (List WorkspaceFolder)
  getWorkspaceFolder : Uri → Option WorkspaceFolder
  needsUpdate : Uri → Bool
  userAction : Uri → UserAction

/-- The migration workflow guarded by the semaphore (client.ts lines
557-603): skipped when `notNow` is set or the global migration setting is
not `on`; otherwise, when the resource needs the update, the modal prompt
is shown and the chosen item updates the state (`Not now` and
`Open Readme` set `notNow`; `Never migrate Settings` turns the global
setting off; `Yes` applies the update, an external settings rewrite not
tracked here).  The second component reports whether the prompt was
shown. -/
def migrationStep (env : Env) (resource : Uri) (st : MigState) : MigState × Bool :=
  if st.notNow = false ∧ st.migrationSetting = "on" then
    if env.needsUpdate resource then
      match dialogSelect (env.userAction resource) with
      | MigChoice.yes => (st, true)
      | MigChoice.no => ({ st with notNow := true }, true)
      | MigChoice.global => ({ st with migrationSetting := "off" }, true)
      | MigChoice.readme => ({ st with notNow := true }, true)
    else (st, false)
  else (st, false)

/-- One item of a configuration-resolution batch. -/
structure BatchItem where
  sectionName : Option String
  scopeUri : Option Uri

/-- JS truthiness of an optional string: absent and empty are falsy. -/
def truthyStr : Option String → Bool
  | none => false
  | some s => decide (s ≠ "")

/-- JS truthiness of an optional URI string. -/
def truthyUri : Option Uri → Bool
  | none => false
  | some u => decide (u.key ≠ "")

/-- The null-result guard of the per-item loop (client.ts line 547):
`item.section || !item.scopeUri`, with JS truthiness. -/
def itemIsNull (item : BatchItem) : Bool :=
  truthyStr item.sectionName || !(truthyUri item.scopeUri)

/-- Modelled from the spec: `CodeActionsOnSaveMode.from` of shared/settings
(not under src/): recognizes `problems`, defaulting to `all`. -/
def codeActionsOnSaveModeFrom (value : String) : String :=
  if value = "problems" then "problems" else "all"

/-- Modelled from the spec: `ESLintSeverity.from` of shared/settings (not
under src/): recognizes the known severities, defaulting to `off`. -/
def eslintSeverityFrom (value : String) : String :=
  if value = "off" ∨ value = "info" ∨ value = "warn" ∨ value = "error" then value else "off"

/-- Modelled from the spec: `CodeActionsOnSaveRules.from` of
shared/settings (not under src/): a null source clears the rule list and
an array is taken as is. -/
def codeActionsOnSaveRulesFrom (value : Option (List String)) : Option (List String) := value

/-- The body of the per-item loop of `readConfiguration` (client.ts lines
546-719) for one batch item: the null guard with `continue`, the migration
critical section, and the settings build.  `probeFailed` is the
validator's probe-failed set; the third component is the migration
prompt-shown flag of this item. -/
def resolveItem (env : Env) (probeFailed : List String) (st : MigState)
    (item : BatchItem) : Option ConfigurationSettings × MigState × Bool :=
  if itemIsNull item then (none, st, false)
  else
    match item.scopeUri with
    | none => (none, st, false)
    | some resource =>
      let textDocument := env.syncedDocuments resource.key
      let configScope :=
        match textDocument with
        | some d => d.uri
        | none => resource
      let config := env.configOf configScope
      let workspaceFolder :=
        if resource.scheme = "untitled" then
          match env.workspaceFolders with
          | some (first :: _) => some first
          | _ => none
        else env.getWorkspaceFolder resource
      let stepped := migrationStep env resource st
      let settings0 : ConfigurationSettings :=
        { validate := Validate.off
          packageManager := config.packageManager
          useESLintClass := config.useESLintClass
          experimentalUseFlatConfig := config.experimentalUseFlatConfig
          codeActionOnSave := { mode := "all", rules := none }
          format := false
          quiet := config.quiet
          onIgnoredFiles := eslintSeverityFrom config.onIgnoredFiles
          optionsBlob := config.optionsBlob
          rulesCustomizations := getRuleCustomizations config resource
          run := config.run
          nodePath := config.nodePath
          workingDirectory := none
          workspaceFolder := none
          disableRuleCommentBlob := config.disableRuleCommentBlob
          showDocumentationBlob := config.showDocumentationBlob }
      match env.syncedDocuments resource.key with
      | none => (some settings0, stepped.1, stepped.2)
      | some document =>
        let settings1 :=
          if config.enabled then
            { settings0 with
              validate := Validator.check (env.configOf document.uri) probeFailed document }
          else settings0
        let settings2 :=
          if settings1.validate ≠ Validate.off then
            { settings1 with
              format := config.formatEnable
              codeActionOnSave :=
                { mode := codeActionsOnSaveModeFrom config.codeActionsOnSaveMode
                  rules := codeActionsOnSaveRulesFrom config.codeActionsOnSaveRules } }
          else settings1
        let settings3 :=
          match workspaceFolder with
          | some folder => { settings2 with workspaceFolder := some folder }
          | none => settings2
        let settings4 :=
          match config.workingDirectories with
          | some workingDirectories =>
            let workspaceFolderPath :=
              match workspaceFolder with
              | some folder =>
                if folder.uri.scheme = "file" then some folder.uri.fsPath else none
              | none => none
            let filePath :=
              if document.uri.scheme = "file" then some document.uri.fsPath else none
            { settings3 with
              workingDirectory :=
                resolveWorkingDirectory workspaceFolderPath filePath workingDirectories }
          | none => settings3
        (some settings4, stepped.1, stepped.2)

/-- The result-accumulating loop of `readConfiguration` over the batch
items, threading the migration state and collecting the per-item
prompt-shown flags. -/
def readConfigurationItems (env : Env) (probeFailed : List String) :
    MigState → List BatchItem → List (Option ConfigurationSettings) × MigState × List Bool
  | st, [] => ([], st, [])
  | st, item :: rest =>
    let first := resolveItem env probeFailed st item
    let tail := readConfigurationItems env probeFailed first.2.1 rest
    (first.1 :: tail.1, tail.2.1, first.2.2 :: tail.2.2)

/-- `readConfiguration` (client.ts lines 541-721): an absent item array
gives the empty result; otherwise the per-item loop runs over the batch. -/
def readConfiguration (env : Env) (probeFailed : List String) (st : MigState)
    (items : Option (List BatchItem)) :
    List (Option ConfigurationSettings) × MigState × List Bool :=
  match items with
  | none => ([], st, [])
  | some itemList => readConfigurationItems env probeFailed st itemList

/-- One configuration-resolution request: its environment, the validator's
probe-failed set at the time, and the batch items. -/
structure BatchCall where
  env : Env
  probeFailed : List String
  items : Option (List BatchItem)

/-- A session fragment: a sequence of configuration-resolution requests
threading the migration state, collecting every prompt-shown flag in
order. -/
def runBatches : MigState → List BatchCall → MigState × List Bool
  | st, [] => (st, [])
  | st, call :: rest =>
    let first := readConfiguration call.env call.probeFailed st call.items
    let tail := runBatches first.2.1 rest
    (tail.1, first.2.2 ++ tail.2)

/-- C9: rules-customization parsing drops malformed entries individually —
the parse of an array source keeps exactly the well-formed entries in
order — and a non-array or absent source yields the empty list; parsing is
total, so no entry can fail the batch. -/
theorem rules_customizations_drop_malformed :
    (∀ entries : List RawEntry,
      parseRulesCustomizations (RawRules.arr entries) =
        entries.filterMap RawEntry.wellFormed) ∧
    parseRulesCustomizations RawRules.nonArray = [] := by
  refine ⟨?_, rfl⟩
  intro entries
  induction entries with
  | nil => rfl
  | cons e rest ih =>
    cases hs : e.severity <;> cases hr : e.rule <;>
      simp [parseRulesCustomizations, RawEntry.wellFormed, hs, hr] <;>
      simpa [parseRulesCustomizations] using ih

theorem readConfigurationItems_length (env : Env) (probeFailed : List String) :
    ∀ (items : List BatchItem) (st : MigState),
      (readConfigurationItems env probeFailed st items).1.length = items.length := by
  intro items
  induction items with
  | nil => intro st; rfl
  | cons item rest ih =>
    intro st
    simp [readConfigurationItems, ih]

theorem resolveItem_of_null (env : Env) (probeFailed : List String) (st : MigState)
    (item : BatchItem) (h : itemIsNull item = true) :
    resolveItem env probeFailed st item = (none, st, false) := by
  simp [resolveItem, h]

theorem readConfigurationItems_null_at (env : Env) (probeFailed : List String) :
    ∀ (items : List BatchItem) (st : MigState) (i : Nat) (item : BatchItem),
      items.get? i = some item → itemIsNull item = true →
      (readConfigurationItems env probeFailed st items).1.get? i = some none := by
  intro items
  induction items with
  | nil =>
    intro st i item hget
    simp at hget
  | cons first rest ih =>
    intro st i item hget hnull
    cases i with
    | zero =>
      simp only [List.get?_cons_zero, Option.some.injEq] at hget
      subst hget
      simp [readConfigurationItems, resolveItem_of_null _ _ _ _ hnull]
    | succ n =>
      simp only [List.get?_cons_succ] at hget
      simp only [readConfigurationItems, List.get?_cons_succ]
      exact ih _ n item hget hnull

/-- C5: `readConfiguration` preserves the cardinality and order of the
batch — the result list has one entry per item, positionally — and every
item that carries a truthy explicit `section` or lacks a truthy `scopeUri`
yields `null` at its position. -/
theorem read_configuration_shape (env : Env) (probeFailed : List String)
    (st : MigState) (items : List BatchItem) :
    ((readConfiguration env probeFailed st (some items)).1.length = items.length) ∧
    (∀ (i : Nat) (item : BatchItem), items.get? i = some item → itemIsNull item = true →
      (readConfiguration env probeFailed st (some items)).1.get? i = some none) := by
  constructor
  · exact readConfigurationItems_length env probeFailed items st
  · intro i item hget hnull
    exact readConfigurationItems_null_at env probeFailed items st i item hget hnull

/-- A concrete environment for the batch witnesses: the sample document is
synced, one workspace folder exists, no migration is needed. -/
def sampleEnv : Env where
  configOf := fun _ => sampleProbeConfig
  syncedDocuments := fun key => if key = sampleDoc.uri.key then some sampleDoc else none
  workspaceFolders :=
    some [{ name := "ws", uri := { scheme := "file", fsPath := "/ws", key := "file:///ws" } }]
  getWorkspaceFolder :=
    fun _ => some { name := "ws", uri := { scheme := "file", fsPath := "/ws", key := "file:///ws" } }
  needsUpdate := fun _ => false
  userAction := fun _ => UserAction.dismiss

/-- The initial migration state: `notNow` unset, global migration `on`. -/
def sampleState : MigState where
  notNow := false
  migrationSetting := "on"

/-- A sample batch: an item with an explicit section followed by a plain
scoped item. -/
def sampleItems : List BatchItem :=
  [{ sectionName := some "eslint", scopeUri := some sampleDoc.uri },
   { sectionName := none, scopeUri := some sampleDoc.uri }]

/-- Witness for C5 at a concrete input: a two-item batch resolves to two
entries and the explicit-section item resolves to `null`. -/
theorem read_configuration_shape_witness :
    (readConfiguration sampleEnv [] sampleState (some sampleItems)).1.length = 2 ∧
    (readConfiguration sampleEnv [] sampleState (some sampleItems)).1.get? 0 = some none :=
  ⟨(read_configuration_shape sampleEnv [] sampleState sampleItems).1.trans rfl,
   (read_configuration_shape sampleEnv [] sampleState sampleItems).2 0
     { sectionName := some "eslint", scopeUri := some sampleDoc.uri } rfl (by decide)⟩

/-- C6: every resolved (non-null) batch item yields a settings bag; its
`validate` starts at `off` and is set via the validator's classification
exactly when the scope URI maps to a currently synced document and the
resource-level `enabled` flag is true; otherwise it stays `off`. -/
theorem resolved_settings_validate (env : Env) (probeFailed : List String)
    (st : MigState) (item : BatchItem) (resource : Uri)
    (hscope : item.scopeUri = some resource)
    (hnotnull : itemIsNull item = false) :
    ((resolveItem env probeFailed st item).1.map ConfigurationSettings.validate ≠ none) ∧
    (env.syncedDocuments resource.key = none →
      (resolveItem env probeFailed st item).1.map ConfigurationSettings.validate =
        some Validate.off) ∧
    (∀ document : TextDoc, env.syncedDocuments resource.key = some document →
      (env.configOf document.uri).enabled = true →
      (resolveItem env probeFailed st item).1.map ConfigurationSettings.validate =
        some (Validator.check (env.configOf document.uri) probeFailed document)) ∧
    (∀ document : TextDoc, env.syncedDocuments resource.key = some document →
      (env.configOf document.uri).enabled = false →
      (resolveItem env probeFailed st item).1.map ConfigurationSettings.validate =
        some Validate.off) := by
  refine ⟨?_, ?_, ?_, ?_⟩
  · cases hdoc : env.syncedDocuments resource.key with
    | none => simp [resolveItem, hnotnull, hscope, hdoc]
    | some document =>
      simp only [resolveItem, hnotnull, hscope, hdoc]
      simp only [Bool.false_eq_true, if_false]
      repeat' split
      all_goals simp
  · intro hdoc
    simp [resolveItem, hnotnull, hscope, hdoc]
  · intro document hdoc hen
    simp only [resolveItem, hnotnull, hscope, hdoc]
    simp only [Bool.false_eq_true, if_false, hen, if_true]
    repeat' split
    all_goals simp_all
  · intro document hdoc hen
    simp only [resolveItem, hnotnull, hscope, hdoc]
    simp only [Bool.false_eq_true, if_false, hen]
    repeat' split
    all_goals simp_all

/-- Witness for C6 at a concrete input: the synced sample document with the
`enabled` flag on resolves with `validate` set by classification to
`probe`. -/
theorem resolved_settings_validate_witness :
    (resolveItem sampleEnv [] sampleState
        { sectionName := none, scopeUri := some sampleDoc.uri }).1.map
      ConfigurationSettings.validate = some Validate.probe :=
  ((resolved_settings_validate sampleEnv [] sampleState
      { sectionName := none, scopeUri := some sampleDoc.uri } sampleDoc.uri rfl
      (by decide)).2.2.1 sampleDoc (by decide) (by decide)).trans (by decide)

theorem migrationStep_of_notNow (env : Env) (resource : Uri) (st : MigState)
    (h : st.notNow = true) : migrationStep env resource st = (st, false) := by
  simp [migrationStep, h]

theorem resolveItem_of_notNow (env : Env) (probeFailed : List String) (st : MigState)
    (item : BatchItem) (h : st.notNow = true) :
    (resolveItem env probeFailed st item).2 = (st, false) := by
  unfold resolveItem
  repeat' split
  all_goals simp [migrationStep_of_notNow _ _ _ h]

theorem readConfigurationItems_of_notNow (env : Env) (probeFailed : List String) :
    ∀ (items : List BatchItem) (st : MigState), st.notNow = true →
      (readConfigurationItems env probeFailed st items).2.1 = st ∧
      ∀ b ∈ (readConfigurationItems env probeFailed st items).2.2, b = false := by
  intro items
  induction items with
  | nil =>
    intro st h
    exact ⟨rfl, by simp [readConfigurationItems]⟩
  | cons item rest ih =>
    intro st h
    have hri := resolveItem_of_notNow env probeFailed st item h
    have hfst : (resolveItem env probeFailed st item).2.1 = st := by rw [hri]
    have hsnd : (resolveItem env probeFailed st item).2.2 = false := by rw [hri]
    simp only [readConfigurationItems, hfst, hsnd]
    obtain ⟨ih1, ih2⟩ := ih st h
    refine ⟨ih1, ?_⟩
    intro b hb
    simp only [List.mem_cons] at hb
    cases hb with
    | inl hb => exact hb
    | inr hb => exact ih2 b hb

theorem readConfiguration_of_notNow (env : Env) (probeFailed : List String)
    (st : MigState) (items : Option (List BatchItem)) (h : st.notNow = true) :
    (readConfiguration env probeFailed st items).2.1 = st ∧
    ∀ b ∈ (readConfiguration env probeFailed st items).2.2, b = false := by
  cases items with
  | none => exact ⟨rfl, by simp [readConfiguration]⟩
  | some itemList => exact readConfigurationItems_of_notNow env probeFailed itemList st h

theorem runBatches_of_notNow :
    ∀ (calls : List BatchCall) (st : MigState), st.notNow = true →
      ∀ b ∈ (runBatches st calls).2, b = false := by
  intro calls
  induction calls with
  | nil =>
    intro st h b hb
    simp [runBatches] at hb
  | cons call rest ih =>
    intro st h b hb
    obtain ⟨h1, h2⟩ :=
      readConfiguration_of_notNow call.env call.probeFailed st call.items h
    simp only [runBatches, List.mem_append] at hb
    cases hb with
    | inl hb => exact h2 b hb
    | inr hb =>
      rw [h1] at hb
      exact ih st h b hb

/-- C7: once the migration prompt is shown and answered with `Not now` or
`Open Readme`, or dismissed (the modal returns the close-affordance
`Not now` item), the state carries `notNow = true`, and across any
sequence of subsequent configuration-resolution requests — whose
environments may still report `needsUpdate` — no prompt is ever shown
again for the rest of the session. -/
theorem migration_deferral (env : Env) (resource : Uri) (st : MigState)
    (calls : List BatchCall)
    (haction : env.userAction resource = UserAction.no ∨
      env.userAction resource = UserAction.readme ∨
      env.userAction resource = UserAction.dismiss)
    (hshown : (migrationStep env resource st).2 = true) :
    ((migrationStep env resource st).1.notNow = true) ∧
    (∀ b ∈ (runBatches (migrationStep env resource st).1 calls).2, b = false) := by
  have hn : (migrationStep env resource st).1.notNow = true := by
    by_cases hA : (st.notNow = false ∧ st.migrationSetting = "on")
    · by_cases hB : env.needsUpdate resource = true
      · rcases haction with h | h | h <;>
          simp [migrationStep, hA, hB, dialogSelect, h]
      · simp [migrationStep, hA, hB] at hshown
    · simp [migrationStep, hA] at hshown
  exact ⟨hn, runBatches_of_notNow calls _ hn⟩

/-- The sample environment where every resource still needs the legacy
migration and the user dismisses the dialog. -/
def sampleMigEnv : Env :=
  { sampleEnv with needsUpdate := fun _ => true }

/-- Witness for C7 at a concrete input: the prompt is shown once, the
dismissal defers, and a subsequent two-item resolution request shows no
prompt although `needsUpdate` is still true. -/
theorem migration_deferral_witness :
    (migrationStep sampleMigEnv sampleDoc.uri sampleState).2 = true ∧
    (migrationStep sampleMigEnv sampleDoc.uri sampleState).1.notNow = true ∧
    ∀ b ∈ (runBatches (migrationStep sampleMigEnv sampleDoc.uri sampleState).1
        [{ env := sampleMigEnv, probeFailed := [], items := some sampleItems }]).2,
      b = false :=
  ⟨by decide,
   (migration_deferral sampleMigEnv sampleDoc.uri sampleState
     [{ env := sampleMigEnv, probeFailed := [], items := some sampleItems }]
     (Or.inr (Or.inr rfl)) (by decide)).1,
   (migration_deferral sampleMigEnv sampleDoc.uri sampleState
     [{ env := sampleMigEnv, probeFailed := [], items := some sampleItems }]
     (Or.inr (Or.inr rfl)) (by decide)).2⟩

/-- The lifecycle of one configuration-resolution request with respect to
the migration critical section. -/
inductive TaskPhase
  | idle
  | waiting
  | critical
  | done
deriving DecidableEq, Repr

/-- The number of requests currently inside the critical section. -/
def countCritical (tasks : List TaskPhase) : Nat :=
  tasks.countP (fun phase => decide (phase = TaskPhase.critical))

/-- Modelled from the spec: the capacity-one `Semaphore` of node-utils
(not under src/) that `readConfiguration` takes per item (client.ts lines
128-129 and 557): a request first asks for the lock, enters the critical
section only when no request is inside it, and releases it unconditionally
on every exit path of the migration workflow. -/
inductive SemStep : List TaskPhase → List TaskPhase → Prop
  | request (tasks : List TaskPhase) (t : Nat)
      (h : tasks.get? t = some TaskPhase.idle) :
      SemStep tasks (tasks.set t TaskPhase.waiting)
  | enter (tasks : List TaskPhase) (t : Nat)
      (h : tasks.get? t = some TaskPhase.waiting)
      (hfree : countCritical tasks = 0) :
      SemStep tasks (tasks.set t TaskPhase.critical)
  | release (tasks : List TaskPhase) (t : Nat)
      (h : tasks.get? t = some TaskPhase.critical) :
      SemStep tasks (tasks.set t TaskPhase.done)

/-- The interleavings reachable from a given state by semaphore steps. -/
inductive SemReachable (start : List TaskPhase) : List TaskPhase → Prop
  | refl : SemReachable start start
  | step (s s' : List TaskPhase) (hs : SemReachable start s) (hstep : SemStep s s') :
      SemReachable start s'

/-- The all-idle initial state for a given number of requests. -/
def semInit (n : Nat) : List TaskPhase := List.replicate n TaskPhase.idle

theorem countP_set_le_succ {α : Type} (p : α → Bool) :
    ∀ (l : List α) (t : Nat) (a : α), (l.set t a).countP p ≤ l.countP p + 1 := by
  intro l
  induction l with
  | nil =>
    intro t a
    simp [List.set]
  | cons x xs ih =>
    intro t a
    cases t with
    | zero =>
      simp only [List.set, List.countP_cons]
      cases hpa : p a <;> cases hpx : p x <;> simp <;> omega
    | succ k =>
      simp only [List.set, List.countP_cons]
      have := ih k a
      cases hpx : p x <;> simp <;> omega

theorem countP_set_le_of_false {α : Type} (p : α → Bool) :
    ∀ (l : List α) (t : Nat) (a : α), p a = false → (l.set t a).countP p ≤ l.countP p := by
  intro l
  induction l with
  | nil =>
    intro t a _
    simp [List.set]
  | cons x xs ih =>
    intro t a ha
    cases t with
    | zero =>
      simp only [List.set, List.countP_cons, ha]
      simp
    | succ k =>
      simp only [List.set, List.countP_cons]
      have := ih k a ha
      cases hpx : p x <;> simp <;> omega

theorem countCritical_semInit (n : Nat) : countCritical (semInit n) = 0 := by
  induction n with
  | zero => rfl
  | succ k ih =>
    simp only [semInit, List.replicate, countCritical, List.countP_cons] at *
    simp [ih]

/-- C8: in every interleaving of requests around the migration semaphore,
at most one request is inside the critical section at any time — the
migration workflow is single-slot and system-wide, so two overlapping
resolution requests never show two prompts simultaneously, and a second
request enters only after the first has released the section. -/
theorem migration_mutual_exclusion (n : Nat) (s : List TaskPhase)
    (h : SemReachable (semInit n) s) : countCritical s ≤ 1 := by
  induction h with
  | refl => simp [countCritical_semInit]
  | step s s' hs hstep ih =>
    cases hstep with
    | request t ht =>
      have := countP_set_le_of_false
        (fun phase => decide (phase = TaskPhase.critical)) s t TaskPhase.waiting rfl
      exact le_trans this ih
    | enter t ht hfree =>
      have := countP_set_le_succ
        (fun phase => decide (phase = TaskPhase.critical)) s t TaskPhase.critical
      unfold countCritical at *
      omega
    | release t ht =>
      have := countP_set_le_of_false
        (fun phase => decide (phase = TaskPhase.critical)) s t TaskPhase.done rfl
      exact le_trans this ih

/-- Witness for C8 at a concrete interleaving: two overlapping requests,
the first inside the critical section while the second waits, is reachable
and keeps at most one request in the section. -/
theorem migration_mutual_exclusion_witness :
    SemReachable (semInit 2) [TaskPhase.critical, TaskPhase.waiting] ∧
    countCritical [TaskPhase.critical, TaskPhase.waiting] ≤ 1 := by
  have h1 : SemReachable (semInit 2) [TaskPhase.waiting, TaskPhase.idle] :=
    SemReachable.step _ _ SemReachable.refl
      (SemStep.request [TaskPhase.idle, TaskPhase.idle] 0 rfl)
  have h2 : SemReachable (semInit 2) [TaskPhase.waiting, TaskPhase.waiting] :=
    SemReachable.step _ _ h1
      (SemStep.request [TaskPhase.waiting, TaskPhase.idle] 1 rfl)
  have h3 : SemReachable (semInit 2) [TaskPhase.critical, TaskPhase.waiting] :=
    SemReachable.step _ _ h2
      (SemStep.enter [TaskPhase.waiting, TaskPhase.waiting] 0 rfl rfl)
  exact ⟨h3, migration_mutual_exclusion 2 _ h3⟩
